import Mathlib

/-!
Verification of the go-igbinary decoder (a pure Go decoder for PHP's
igbinary serialization format, version 2).

This file shallowly embeds the decoder from the repository's source:
the byte-level reader primitives, the string-interning table, the
compound-value table, and the mutually recursive value/array/object
decoding routines.  Go bytes are modelled as natural numbers below 256,
Go strings as Lean strings over Latin-1 code points (one `Char` per
byte, which preserves byte-for-byte equality), and Go maps — which are
reference types that the decoder mutates after registering them in the
value table — as addresses into an explicit heap of association lists.

The Go code has no fuel parameter; recursion in the source terminates
because every recursive call consumes input.  The embedding threads an
explicit fuel argument (a standard technique to make the definitions
structurally recursive); `DErr.outOfFuel` is an artifact of the
embedding that is unreachable when the fuel exceeds the number of
decoding steps, and the top-level `Decoder.Decode` supplies a generous
fuel derived from the input length.
-/

set_option autoImplicit false

namespace Igbinary

/-- Sentinel error kinds, from `errors.go` (plus `ErrValueRefOutOfRange`,
which `reader.lookupValue` returns for an out-of-range compound
back-reference). -/
inductive ErrKind
  | dataTooShort
  | invalidHeader
  | unexpectedEnd
  | unknownType
  | stringIDOutOfRange
  | valueRefOutOfRange
  | invalidObjectProperties
  | invalidSerializedData
  | unsupportedArrayKey
  deriving DecidableEq

/-- Decode errors.  `mk` embeds `newError` / `DecodeError` (sentinel kind,
byte position, detail text); `wrapped` embeds `fmt.Errorf("...: %w", err)`
wrapping with a context message; `outOfFuel` is the embedding's
termination artifact (see the file header). -/
inductive DErr
  | mk (kind : ErrKind) (pos : Nat) (detail : String)
  | wrapped (ctx : String) (e : DErr)
  | outOfFuel
  deriving DecidableEq

/-- Decoded Go values (`any` in the source).  PHP arrays and objects both
decode to `map[string]any`; since Go maps are mutable reference types and
the decoder registers a map in its value table before populating it,
maps are represented by a heap address (`vref`) into `RState.heap`.
A float64 is kept as its raw IEEE-754 bit pattern (`math.Float64frombits`
is a bijection on bit patterns, so nothing is lost). -/
inductive Value
  | vnull
  | vbool (b : Bool)
  | vint (i : Int)
  | vdouble (bits : Nat)
  | vstr (s : String)
  | vref (a : Nat)
  deriving DecidableEq

/-- A Go `map[string]any`, as an association list without duplicate keys
(assignment `m[k] = v` replaces the binding if the key is present and
appends it otherwise). -/
abbrev GoMap := List (String × Value)

/-- Go map assignment `m[k] = v`. -/
def mapSet (m : GoMap) (k : String) (v : Value) : GoMap :=
  match m with
  | [] => [(k, v)]
  | (k0, v0) :: rest =>
      if k0 = k then (k, v) :: rest else (k0, v0) :: mapSet rest k v

/-- The keys of a Go map. -/
def mapKeys (m : GoMap) : List String := m.map Prod.fst

/-- Constant `ClassKey` is the map key used to store the PHP class name when
decoding objects. -/
def ClassKey : String := "__class"

/-- Constant `SerializedDataKey` is the map key used for raw serialized data of
`Serializable` objects. -/
def SerializedDataKey : String := "__serialized_raw"

/-- Constant `FormatVersion` is the igbinary format version supported. -/
def FormatVersion : Nat := 2

/-- Mutable state of a single decode operation (`reader` in the source):
input bytes, cursor, string deduplication table, compound value
reference table, and the strict flag.  `heap` is the extra component of
the embedding: it gives an identity to each allocated Go map, and
`values` stores heap addresses (in Go it stores the map references
themselves). -/
structure RState where
  data : List Nat
  pos : Nat
  strings : List String
  values : List Nat
  heap : List GoMap
  strict : Bool
  deriving DecidableEq

/-- Go `string(b)` for a byte slice: one char per byte (all bytes are
below 256, hence valid code points; this is injective, so Lean string
equality coincides with Go byte-string equality). -/
def bytesToStr (l : List Nat) : String :=
  String.mk (l.map (fun b => Char.ofNat b))

/-- One lowercase hex digit. -/
def hexDigit (n : Nat) : Char :=
  if n < 10 then Char.ofNat (48 + n) else Char.ofNat (87 + n)

/-- Two-digit lowercase hex of a byte, as produced by Go's `%02x`. -/
def hex2 (n : Nat) : String :=
  String.mk [hexDigit (n / 16 % 16), hexDigit (n % 16)]

/-- Go conversion `int64(v)` of a `uint64` value: reinterpretation in
two's complement. -/
def i64ofU64 (v : Nat) : Int :=
  if v < 2 ^ 63 then (v : Int) else (v : Int) - 2 ^ 64

/-- Go negation of an `int64`: wraps on the minimum value. -/
def i64neg (i : Int) : Int :=
  if i = -(2 ^ 63) then i else -i

/-- Embeds `reader.readByte`.  (The `% 256` records that Go `byte` values are
below 256; it is the identity on any real input.) -/
def readByte (st : RState) : Except DErr (Nat × RState) :=
  if st.pos ≥ st.data.length then
    .error (.mk .unexpectedEnd st.pos "")
  else
    .ok (st.data.getD st.pos 0 % 256, { st with pos := st.pos + 1 })

/-- Embeds `reader.readBytes`: the slice `data[pos : pos+n]`. -/
def readBytes (n : Nat) (st : RState) : Except DErr (List Nat × RState) :=
  if st.pos + n > st.data.length then
    .error (.mk .unexpectedEnd st.pos
      ("need " ++ toString n ++ " bytes, have " ++ toString (st.data.length - st.pos)))
  else
    .ok (((st.data.drop st.pos).take n).map (fun b => b % 256),
         { st with pos := st.pos + n })

/-- Embeds `reader.readUint8`. -/
def readUint8 (st : RState) : Except DErr (Nat × RState) :=
  readByte st

/-- Embeds `reader.readUint16` (big-endian). -/
def readUint16 (st : RState) : Except DErr (Nat × RState) := do
  let (b, st1) ← readBytes 2 st
  .ok (b.getD 0 0 * 256 + b.getD 1 0, st1)

/-- Embeds `reader.readUint32` (big-endian). -/
def readUint32 (st : RState) : Except DErr (Nat × RState) := do
  let (b, st1) ← readBytes 4 st
  .ok (((b.getD 0 0 * 256 + b.getD 1 0) * 256 + b.getD 2 0) * 256 + b.getD 3 0, st1)

/-- Embeds `reader.readUint64` (big-endian). -/
def readUint64 (st : RState) : Except DErr (Nat × RState) := do
  let (b, st1) ← readBytes 8 st
  .ok (((((((b.getD 0 0 * 256 + b.getD 1 0) * 256 + b.getD 2 0) * 256 + b.getD 3 0)
      * 256 + b.getD 4 0) * 256 + b.getD 5 0) * 256 + b.getD 6 0) * 256 + b.getD 7 0, st1)

/-- Embeds `reader.readAndRegisterString`: read `length` raw bytes and append
the resulting string to the deduplication table. -/
def readAndRegisterString (length : Nat) (st : RState) :
    Except DErr (String × RState) := do
  let (b, st1) ← readBytes length st
  let s := bytesToStr b
  .ok (s, { st1 with strings := st1.strings ++ [s] })

/-- Embeds `reader.decodeNewString8`. -/
def decodeNewString8 (st : RState) : Except DErr (String × RState) := do
  let (length, st1) ← readUint8 st
  readAndRegisterString length st1

/-- Embeds `reader.decodeNewString16`. -/
def decodeNewString16 (st : RState) : Except DErr (String × RState) := do
  let (length, st1) ← readUint16 st
  readAndRegisterString length st1

/-- Embeds `reader.decodeNewString32`. -/
def decodeNewString32 (st : RState) : Except DErr (String × RState) := do
  let (length, st1) ← readUint32 st
  readAndRegisterString length st1

/-- Embeds `reader.lookupString`.  The id always originates from an unsigned
read, so it is a `Nat` here and the source's `id < 0` test is vacuous. -/
def lookupString (id : Nat) (st : RState) : Except DErr String :=
  if id < st.strings.length then
    .ok (st.strings.getD id "")
  else
    .error (.mk .stringIDOutOfRange st.pos
      ("ID " ++ toString id ++ ", table size " ++ toString st.strings.length))

/-- Embeds `reader.lookupValue`: resolves a compound back-reference to the
registered map (here: to its heap address). -/
def lookupValue (id : Nat) (st : RState) : Except DErr Value :=
  if id < st.values.length then
    .ok (.vref (st.values.getD id 0))
  else
    .error (.mk .valueRefOutOfRange st.pos
      ("ID " ++ toString id ++ ", table size " ++ toString st.values.length))

/-- Embeds `reader.decodeArrayKey`.  Type codes appear as literals in the match;
they are (in order of the source switch): `TypeStringEmpty = 0x0D`,
`TypeString8/16/32 = 0x11/0x12/0x13`, `TypeStringID8/16/32 =
0x0E/0x0F/0x10`, `TypePosInt8 = 0x06`, `TypeNegInt8 = 0x07`,
`TypePosInt16 = 0x08`, `TypeNegInt16 = 0x09`, `TypePosInt32 = 0x0A`,
`TypeNegInt32 = 0x0B`, `TypePosInt64 = 0x20`, `TypeNegInt64 = 0x21`.
Integer keys are rendered in decimal as by `fmt.Sprintf`. -/
def decodeArrayKey (st0 : RState) : Except DErr (String × RState) := do
  let (code, st) ← readByte st0
  match code with
  | 0x0D => .ok ("", st)
  | 0x11 => decodeNewString8 st
  | 0x12 => decodeNewString16 st
  | 0x13 => decodeNewString32 st
  | 0x0E => do
      let (v, st1) ← readUint8 st
      let s ← lookupString v st1
      .ok (s, st1)
  | 0x0F => do
      let (v, st1) ← readUint16 st
      let s ← lookupString v st1
      .ok (s, st1)
  | 0x10 => do
      let (v, st1) ← readUint32 st
      let s ← lookupString v st1
      .ok (s, st1)
  | 0x06 => do
      let (v, st1) ← readUint8 st
      .ok (toString v, st1)
  | 0x07 => do
      let (v, st1) ← readUint8 st
      .ok ("-" ++ toString v, st1)
  | 0x08 => do
      let (v, st1) ← readUint16 st
      .ok (toString v, st1)
  | 0x09 => do
      let (v, st1) ← readUint16 st
      .ok ("-" ++ toString v, st1)
  | 0x0A => do
      let (v, st1) ← readUint32 st
      .ok (toString v, st1)
  | 0x0B => do
      let (v, st1) ← readUint32 st
      .ok ("-" ++ toString v, st1)
  | 0x20 => do
      let (v, st1) ← readUint64 st
      .ok (toString v, st1)
  | 0x21 => do
      let (v, st1) ← readUint64 st
      .ok ("-" ++ toString v, st1)
  | _ => .error (.mk .unsupportedArrayKey (st.pos - 1) ("0x" ++ hex2 code))

/-- Embeds `reader.decodeRef`: compound back-reference (`TypeArrayRef8/16/32 =
0x01/0x02/0x03`, `TypeObjectRef8/16/32 = 0x22/0x23/0x24`).  The source's
unreachable `default` arm returns `nil, nil`. -/
def decodeRef (code : Nat) (st : RState) : Except DErr (Value × RState) :=
  match code with
  | 0x01 | 0x22 => do
      let (v, st1) ← readUint8 st
      let r ← lookupValue v st1
      .ok (r, st1)
  | 0x02 | 0x23 => do
      let (v, st1) ← readUint16 st
      let r ← lookupValue v st1
      .ok (r, st1)
  | 0x03 | 0x24 => do
      let (v, st1) ← readUint32 st
      let r ← lookupValue v st1
      .ok (r, st1)
  | _ => .ok (.vnull, st)

/-- The tail of `reader.decodeObjectSerialized` after the class name has
been read: the data-length header (which must carry a fresh-string type
code `0x11/0x12/0x13`), the raw blob, and the construction and
registration of the two-entry map. -/
def decodeObjectSerializedBody (className : String) (st2 : RState) :
    Except DErr (Value × RState) := do
  let (dataLenCode, st3) ← readByte st2
  let (dataLen, st4) ←
    match dataLenCode with
    | 0x11 => readUint8 st3
    | 0x12 => readUint16 st3
    | 0x13 => readUint32 st3
    | _ => .error (.mk .invalidSerializedData (st3.pos - 1)
        ("expected string type code, got 0x" ++ hex2 dataLenCode))
  let (raw, st5) ← readBytes dataLen st4
  let m : GoMap := [(ClassKey, .vstr className), (SerializedDataKey, .vstr (bytesToStr raw))]
  let a := st5.heap.length
  .ok (.vref a, { st5 with heap := st5.heap ++ [m], values := st5.values ++ [a] })

/-- Embeds `reader.decodeObjectSerialized` (`TypeObjectSer8/16/32 =
0x1D/0x1E/0x1F`): class-name length, class name (registered as a fresh
string), then the serialized blob.  The source's switch on `code` has no
default, so an unreachable other code leaves the name length at zero. -/
def decodeObjectSerialized (code : Nat) (st : RState) :
    Except DErr (Value × RState) := do
  let (nameLen, st1) ←
    match code with
    | 0x1D => readUint8 st
    | 0x1E => readUint16 st
    | 0x1F => readUint32 st
    | _ => .ok (0, st)
  let (className, st2) ← readAndRegisterString nameLen st1
  decodeObjectSerializedBody className st2

/-- The property-count header of `reader.decodeObjectProperties`: one
type-code byte that must be `TypeArray8/16/32 = 0x14/0x15/0x16`,
followed by the count itself. -/
def readPropCount (st : RState) : Except DErr (Nat × RState) := do
  let (propCountCode, st1) ← readByte st
  match propCountCode with
  | 0x14 => readUint8 st1
  | 0x15 => readUint16 st1
  | 0x16 => readUint32 st1
  | _ => .error (.mk .invalidObjectProperties (st1.pos - 1)
      ("expected array type code, got 0x" ++ hex2 propCountCode))

/-- Go map assignment into the heap map at address `a`. -/
def heapSet (st : RState) (a : Nat) (k : String) (v : Value) : RState :=
  { st with heap := st.heap.set a (mapSet (st.heap.getD a []) k v) }

/-- Embeds the body of the mutually recursive part of the decoder
(`reader.decodeValue`, `reader.decodeArray` and its key/value loop,
`reader.decodeObject`, `reader.decodeObjectByID`,
`reader.decodeObjectProperties` and its key/value loop).  The mutual
recursion of the source is folded into a single structurally recursive
function over a request selector so that closed runs reduce inside the
kernel; the source-named functions below are definitional wrappers that
select the corresponding branch.  The population loops yield their final
state paired with a dummy `vnull` value. -/
inductive Req where
  | val : Req
  | arr (size : Nat) : Req
  | arrE (rem i a : Nat) : Req
  | obj (code : Nat) : Req
  | objID (code : Nat) : Req
  | props (className : String) : Req
  | objE (className : String) (rem i a : Nat) : Req

def decodeStep : Nat → Req → RState → Except DErr (Value × RState)
  | 0, _, _ => .error .outOfFuel
  | fuel + 1, .val, st0 => do
    let (code, st) ← readByte st0
    match code with
    | 0x00 => .ok (.vnull, st)
    | 0x04 => .ok (.vbool false, st)
    | 0x05 => .ok (.vbool true, st)
    | 0x06 => do
        let (v, st1) ← readUint8 st
        .ok (.vint (Int.ofNat v), st1)
    | 0x08 => do
        let (v, st1) ← readUint16 st
        .ok (.vint (Int.ofNat v), st1)
    | 0x0A => do
        let (v, st1) ← readUint32 st
        .ok (.vint (Int.ofNat v), st1)
    | 0x20 => do
        let (v, st1) ← readUint64 st
        .ok (.vint (i64ofU64 v), st1)
    | 0x07 => do
        let (v, st1) ← readUint8 st
        .ok (.vint (-(Int.ofNat v)), st1)
    | 0x09 => do
        let (v, st1) ← readUint16 st
        .ok (.vint (-(Int.ofNat v)), st1)
    | 0x0B => do
        let (v, st1) ← readUint32 st
        .ok (.vint (-(Int.ofNat v)), st1)
    | 0x21 => do
        let (v, st1) ← readUint64 st
        .ok (.vint (i64neg (i64ofU64 v)), st1)
    | 0x0C => do
        let (v, st1) ← readUint64 st
        .ok (.vdouble v, st1)
    | 0x0D => .ok (.vstr "", st)
    | 0x11 => do
        let (sv, st1) ← decodeNewString8 st
        .ok (.vstr sv, st1)
    | 0x12 => do
        let (sv, st1) ← decodeNewString16 st
        .ok (.vstr sv, st1)
    | 0x13 => do
        let (sv, st1) ← decodeNewString32 st
        .ok (.vstr sv, st1)
    | 0x0E => do
        let (v, st1) ← readUint8 st
        let sv ← lookupString v st1
        .ok (.vstr sv, st1)
    | 0x0F => do
        let (v, st1) ← readUint16 st
        let sv ← lookupString v st1
        .ok (.vstr sv, st1)
    | 0x10 => do
        let (v, st1) ← readUint32 st
        let sv ← lookupString v st1
        .ok (.vstr sv, st1)
    | 0x14 => do
        let (v, st1) ← readUint8 st
        decodeStep fuel (.arr v) st1
    | 0x15 => do
        let (v, st1) ← readUint16 st
        decodeStep fuel (.arr v) st1
    | 0x16 => do
        let (v, st1) ← readUint32 st
        decodeStep fuel (.arr v) st1
    | 0x17 | 0x18 | 0x19 => decodeStep fuel (.obj code) st
    | 0x1A | 0x1B | 0x1C => decodeStep fuel (.objID code) st
    | 0x1D | 0x1E | 0x1F => decodeObjectSerialized code st
    | 0x01 | 0x02 | 0x03 => decodeRef code st
    | 0x22 | 0x23 | 0x24 => decodeRef code st
    | 0x25 =>
        if st.strict then
          .error (.mk .unknownType (st.pos - 1)
            "simple references are not fully supported in strict mode")
        else
          .ok (.vnull, st)
    | _ => .error (.mk .unknownType (st.pos - 1) ("0x" ++ hex2 code))
  | fuel + 1, .arr size, st =>
    let a := st.heap.length
    let st1 := { st with heap := st.heap ++ [[]], values := st.values ++ [a] }
    (decodeStep fuel (.arrE size 0 a) st1).map (fun p => (.vref a, p.2))
  | fuel + 1, .arrE rem i a, st =>
    match rem with
    | 0 => .ok (.vnull, st)
    | rem + 1 =>
      match decodeArrayKey st with
      | .error e => .error (.wrapped ("array key " ++ toString i) e)
      | .ok (key, st1) =>
        match decodeStep fuel .val st1 with
        | .error e =>
            .error (.wrapped ("array value for key \"" ++ key ++ "\"") e)
        | .ok (val, st2) =>
            decodeStep fuel (.arrE rem (i + 1) a) (heapSet st2 a key val)
  | fuel + 1, .obj code, st => do
    let (nameLen, st1) ←
      match code with
      | 0x17 => readUint8 st
      | 0x18 => readUint16 st
      | 0x19 => readUint32 st
      | _ => .ok (0, st)
    let (className, st2) ← readAndRegisterString nameLen st1
    decodeStep fuel (.props className) st2
  | fuel + 1, .objID code, st => do
    let (classID, st1) ←
      match code with
      | 0x1A => readUint8 st
      | 0x1B => readUint16 st
      | 0x1C => readUint32 st
      | _ => .ok (0, st)
    match lookupString classID st1 with
    | .error e => .error (.wrapped "object class ID" e)
    | .ok className => decodeStep fuel (.props className) st1
  | fuel + 1, .props className, st => do
    let (propCount, st1) ← readPropCount st
    let a := st1.heap.length
    let st2 := { st1 with
      heap := st1.heap ++ [[(ClassKey, Value.vstr className)]],
      values := st1.values ++ [a] }
    (decodeStep fuel (.objE className propCount 0 a) st2).map
      (fun p => (.vref a, p.2))
  | fuel + 1, .objE className rem i a, st =>
    match rem with
    | 0 => .ok (.vnull, st)
    | rem + 1 =>
      match decodeArrayKey st with
      | .error e =>
          .error (.wrapped ("object \"" ++ className ++ "\" property key " ++ toString i) e)
      | .ok (key, st1) =>
        match decodeStep fuel .val st1 with
        | .error e =>
            .error (.wrapped ("object \"" ++ className ++ "\" property \"" ++ key ++ "\"") e)
        | .ok (val, st2) =>
            decodeStep fuel (.objE className rem (i + 1) a) (heapSet st2 a key val)

/-- Embeds `reader.decodeValue`, the tag dispatcher.  Match arms in the
`Req.val` branch of `decodeStep` carry the type codes in the order of
the source switch: `TypeNil = 0x00`, `TypeBoolFalse/True = 0x04/0x05`,
`TypePosInt8/16/32/64 = 0x06/0x08/0x0A/0x20`, `TypeNegInt8/16/32/64 =
0x07/0x09/0x0B/0x21`, `TypeDouble = 0x0C`, `TypeStringEmpty = 0x0D`,
`TypeString8/16/32 = 0x11/0x12/0x13`, `TypeStringID8/16/32 =
0x0E/0x0F/0x10`, `TypeArray8/16/32 = 0x14/0x15/0x16`,
`TypeObject8/16/32 = 0x17/0x18/0x19`, `TypeObjectID8/16/32 =
0x1A/0x1B/0x1C`, `TypeObjectSer8/16/32 = 0x1D/0x1E/0x1F`, array/object
refs `0x01/0x02/0x03/0x22/0x23/0x24`, `TypeSimpleRef = 0x25`. -/
def decodeValue (fuel : Nat) (st : RState) : Except DErr (Value × RState) :=
  decodeStep fuel .val st

/-- Embeds `reader.decodeArray`: allocate the map and register it in the
values table before populating it, so that back-references from nested
values can resolve to this map (handles circular refs). -/
def decodeArray (fuel : Nat) (size : Nat) (st : RState) :
    Except DErr (Value × RState) :=
  decodeStep fuel (.arr size) st

/-- Embeds the key/value loop of `reader.decodeArray` (`rem` entries
remaining, `i` the current index for error contexts, `a` the address of
the map being populated).  Error wrapping follows
`fmt.Errorf("array key %d: %w")` and
`fmt.Errorf("array value for key %q: %w")`. -/
def decodeArrayEntries (fuel : Nat) (rem i a : Nat) (st : RState) :
    Except DErr (Value × RState) :=
  decodeStep fuel (.arrE rem i a) st

/-- Embeds `reader.decodeObject` (`TypeObject8/16/32 = 0x17/0x18/0x19`):
read the class-name length, read and register the class name, then
decode the property block.  The source's switch has no default, so an
unreachable other code leaves the name length at zero. -/
def decodeObject (fuel : Nat) (code : Nat) (st : RState) :
    Except DErr (Value × RState) :=
  decodeStep fuel (.obj code) st

/-- Embeds `reader.decodeObjectByID` (`TypeObjectID8/16/32 =
0x1A/0x1B/0x1C`): read a string-table index, resolve the class name,
then decode the property block.  A failed lookup is wrapped as
`fmt.Errorf("object class ID: %w", err)`. -/
def decodeObjectByID (fuel : Nat) (code : Nat) (st : RState) :
    Except DErr (Value × RState) :=
  decodeStep fuel (.objID code) st

/-- Embeds `reader.decodeObjectProperties`: read the property count,
then create the map with the class name under `ClassKey`, register it in
the values table, and only then decode the key-value pairs. -/
def decodeObjectProperties (fuel : Nat) (className : String) (st : RState) :
    Except DErr (Value × RState) :=
  decodeStep fuel (.props className) st

/-- Embeds the key/value loop of `reader.decodeObjectProperties`.  Error
wrapping follows `fmt.Errorf("object %q property key %d: %w")` and
`fmt.Errorf("object %q property %q: %w")`. -/
def decodeObjectEntries (fuel : Nat) (className : String) (rem i a : Nat)
    (st : RState) : Except DErr (Value × RState) :=
  decodeStep fuel (.objE className rem i a) st

/-! Folding equations: each `decodeStep` branch is the corresponding
source-named function. -/

theorem stepVal_eq (fuel : Nat) (st : RState) :
    decodeStep fuel .val st = decodeValue fuel st := rfl

theorem stepArr_eq (fuel size : Nat) (st : RState) :
    decodeStep fuel (.arr size) st = decodeArray fuel size st := rfl

theorem stepArrE_eq (fuel rem i a : Nat) (st : RState) :
    decodeStep fuel (.arrE rem i a) st = decodeArrayEntries fuel rem i a st := rfl

theorem stepObj_eq (fuel code : Nat) (st : RState) :
    decodeStep fuel (.obj code) st = decodeObject fuel code st := rfl

theorem stepObjID_eq (fuel code : Nat) (st : RState) :
    decodeStep fuel (.objID code) st = decodeObjectByID fuel code st := rfl

theorem stepProps_eq (fuel : Nat) (cn : String) (st : RState) :
    decodeStep fuel (.props cn) st = decodeObjectProperties fuel cn st := rfl

theorem stepObjE_eq (fuel : Nat) (cn : String) (rem i a : Nat) (st : RState) :
    decodeStep fuel (.objE cn rem i a) st = decodeObjectEntries fuel cn rem i a st := rfl

/-- Embeds `Decoder`, which holds only configuration (the strict flag). -/
structure Decoder where
  strict : Bool
  deriving DecidableEq

/-- Embeds `NewDecoder()` with no options: strict defaults to false. -/
def NewDecoder : Decoder := { strict := false }

/-- Embeds `defaultDecoder`, the package-level decoder with default options. -/
def defaultDecoder : Decoder := NewDecoder

/-- The fuel supplied to `decodeValue` by the top-level decode.  Each
decoding step consumes at least one input byte per constant amount of
fuel, so this bound is generous; it exists only because the embedding
threads fuel (the Go source recurses without it). -/
def decodeFuel (data : List Nat) : Nat := 8 * data.length + 8

/-- The fresh per-call session state built by `Decoder.Decode`: cursor
after the 4-byte header, empty tables, the decoder's strict flag. -/
def initialReader (d : Decoder) (data : List Nat) : RState :=
  { data := data, pos := 4, strings := [], values := [], heap := [],
    strict := d.strict }

/-- Embeds `Decoder.Decode`: validate the minimum length and the
`00 00 00 02` header, then decode one value from a fresh session. -/
def Decoder.Decode (d : Decoder) (data : List Nat) : Except DErr Value :=
  if data.length < 5 then
    .error (.mk .dataTooShort 0 (toString data.length ++ " bytes (need at least 5)"))
  else if data.getD 0 0 ≠ 0 ∨ data.getD 1 0 ≠ 0 ∨ data.getD 2 0 ≠ 0
      ∨ data.getD 3 0 ≠ FormatVersion then
    .error (.mk .invalidHeader 0
      ("got " ++ hex2 (data.getD 0 0) ++ " " ++ hex2 (data.getD 1 0) ++ " "
        ++ hex2 (data.getD 2 0) ++ " " ++ hex2 (data.getD 3 0)
        ++ ", want 00 00 00 " ++ hex2 FormatVersion))
  else
    (decodeValue (decodeFuel data) (initialReader d data)).map Prod.fst

/-- Package-level `Decode`, a convenience wrapper around
`Decoder.Decode` on `defaultDecoder`. -/
def Decode (data : List Nat) : Except DErr Value :=
  defaultDecoder.Decode data

/-! ## State-evolution predicates and basic lemmas -/

/-- The step leaves the tables relevant to compound back-references
untouched: values table, heap, input and strict flag are unchanged
(only the cursor and possibly the string table move). -/
def sameVH (st st' : RState) : Prop :=
  st'.values = st.values ∧ st'.heap = st.heap ∧ st'.data = st.data
    ∧ st'.strict = st.strict

/-- The step only extends the values table and the heap: existing value
table entries keep their positions, and existing heap cells keep their
contents. -/
def decodeExtends (st st' : RState) : Prop :=
  (∃ t, st'.values = st.values ++ t)
    ∧ st.heap.length ≤ st'.heap.length
    ∧ (∀ b, b < st.heap.length → st'.heap.getD b [] = st.heap.getD b [])
    ∧ st'.data = st.data ∧ st'.strict = st.strict

theorem sameVH_refl (st : RState) : sameVH st st :=
  ⟨rfl, rfl, rfl, rfl⟩

theorem sameVH_trans {st1 st2 st3 : RState} (h1 : sameVH st1 st2)
    (h2 : sameVH st2 st3) : sameVH st1 st3 := by
  obtain ⟨a1, b1, c1, d1⟩ := h1
  obtain ⟨a2, b2, c2, d2⟩ := h2
  exact ⟨a2.trans a1, b2.trans b1, c2.trans c1, d2.trans d1⟩

theorem sameVH_decodeExtends {st st' : RState} (h : sameVH st st') :
    decodeExtends st st' := by
  obtain ⟨a, b, c, d⟩ := h
  exact ⟨⟨[], by simp [a]⟩, by rw [b], fun k hk => by rw [b], c, d⟩

theorem decodeExtends_refl (st : RState) : decodeExtends st st :=
  sameVH_decodeExtends (sameVH_refl st)

theorem decodeExtends_trans {st1 st2 st3 : RState}
    (h1 : decodeExtends st1 st2) (h2 : decodeExtends st2 st3) :
    decodeExtends st1 st3 := by
  obtain ⟨⟨t1, ht1⟩, hl1, hh1, hd1, hs1⟩ := h1
  obtain ⟨⟨t2, ht2⟩, hl2, hh2, hd2, hs2⟩ := h2
  refine ⟨⟨t1 ++ t2, by rw [ht2, ht1, List.append_assoc]⟩, hl1.trans hl2,
    fun b hb => ?_, hd2.trans hd1, hs2.trans hs1⟩
  rw [hh2 b (lt_of_lt_of_le hb hl1), hh1 b hb]

/-! Small `List.getD`/`List.set` facts used for heap reasoning. -/

theorem getD_set_self {α : Type} (l : List α) (a : Nat) (x d : α)
    (h : a < l.length) : (l.set a x).getD a d = x := by
  induction l generalizing a with
  | nil => simp at h
  | cons y ys ih =>
    cases a with
    | zero => rfl
    | succ a => simpa using ih a (by simpa using h)

theorem getD_set_ne {α : Type} (l : List α) (a b : Nat) (x d : α)
    (h : b ≠ a) : (l.set a x).getD b d = l.getD b d := by
  induction l generalizing a b with
  | nil => simp [List.set]
  | cons y ys ih =>
    cases a with
    | zero =>
      cases b with
      | zero => exact absurd rfl h
      | succ b => simp [List.set]
    | succ a =>
      cases b with
      | zero => simp [List.set]
      | succ b => simpa using ih a b (fun hc => h (by rw [hc]))

/-! ## Monad-bind reduction and primitive-read state lemmas -/

theorem bindOk {ε α β : Type} (a : α) (f : α → Except ε β) :
    (Except.ok a >>= f) = f a := rfl

theorem bindErr {ε α β : Type} (e : ε) (f : α → Except ε β) :
    ((Except.error e : Except ε α) >>= f) = Except.error e := rfl

theorem readByte_ok {st st' : RState} {b : Nat}
    (h : readByte st = .ok (b, st')) : st' = { st with pos := st.pos + 1 } := by
  unfold readByte at h
  split at h
  · exact absurd h (by simp)
  · exact (congrArg Prod.snd (Except.ok.inj h)).symm

theorem readBytes_ok {n : Nat} {st st' : RState} {b : List Nat}
    (h : readBytes n st = .ok (b, st')) :
    st' = { st with pos := st.pos + n } := by
  unfold readBytes at h
  split at h
  · exact absurd h (by simp)
  · exact (congrArg Prod.snd (Except.ok.inj h)).symm

theorem readUint8_ok {st st' : RState} {v : Nat}
    (h : readUint8 st = .ok (v, st')) : st' = { st with pos := st.pos + 1 } :=
  readByte_ok h

theorem readUint16_ok {st st' : RState} {v : Nat}
    (h : readUint16 st = .ok (v, st')) : st' = { st with pos := st.pos + 2 } := by
  unfold readUint16 at h
  rcases hr : readBytes 2 st with e | ⟨bs, st1⟩ <;> rw [hr] at h
  · rw [bindErr] at h
    exact absurd h (by simp)
  · simp only [bindOk] at h
    have h2 : st1 = st' := congrArg Prod.snd (Except.ok.inj h)
    rw [← h2]
    exact readBytes_ok hr

theorem readUint32_ok {st st' : RState} {v : Nat}
    (h : readUint32 st = .ok (v, st')) : st' = { st with pos := st.pos + 4 } := by
  unfold readUint32 at h
  rcases hr : readBytes 4 st with e | ⟨bs, st1⟩ <;> rw [hr] at h
  · rw [bindErr] at h
    exact absurd h (by simp)
  · simp only [bindOk] at h
    have h2 : st1 = st' := congrArg Prod.snd (Except.ok.inj h)
    rw [← h2]
    exact readBytes_ok hr

theorem readUint64_ok {st st' : RState} {v : Nat}
    (h : readUint64 st = .ok (v, st')) : st' = { st with pos := st.pos + 8 } := by
  unfold readUint64 at h
  rcases hr : readBytes 8 st with e | ⟨bs, st1⟩ <;> rw [hr] at h
  · rw [bindErr] at h
    exact absurd h (by simp)
  · simp only [bindOk] at h
    have h2 : st1 = st' := congrArg Prod.snd (Except.ok.inj h)
    rw [← h2]
    exact readBytes_ok hr

/-- States embedded in equal `ok` pairs are equal. -/
theorem okPairState {α : Type} {x k : α} {st1 st2 : RState}
    (h : (Except.ok (x, st1) : Except DErr (α × RState)) = .ok (k, st2)) :
    st1 = st2 :=
  congrArg Prod.snd (Except.ok.inj h)

/-- A pure cursor move preserves the tables. -/
theorem sameVH_pos (st : RState) (p : Nat) :
    sameVH st { st with pos := p } :=
  ⟨rfl, rfl, rfl, rfl⟩

theorem readAndRegisterString_vh {length : Nat} {st st' : RState} {s : String}
    (h : readAndRegisterString length st = .ok (s, st')) : sameVH st st' := by
  unfold readAndRegisterString at h
  rcases hr : readBytes length st with e | ⟨bs, st1⟩ <;> rw [hr] at h
  · rw [bindErr] at h
    exact absurd h (by simp)
  · simp only [bindOk] at h
    have h2 : ({ st1 with strings := st1.strings ++ [bytesToStr bs] } : RState) = st' :=
      okPairState h
    have hb := readBytes_ok hr
    subst hb
    rw [← h2]
    exact ⟨rfl, rfl, rfl, rfl⟩

theorem decodeNewString8_vh {st st' : RState} {s : String}
    (h : decodeNewString8 st = .ok (s, st')) : sameVH st st' := by
  unfold decodeNewString8 at h
  rcases hr : readUint8 st with e | ⟨len, st1⟩ <;> rw [hr] at h
  · rw [bindErr] at h
    exact absurd h (by simp)
  · simp only [bindOk] at h
    have h1 := readUint8_ok hr
    subst h1
    exact sameVH_trans (sameVH_pos st _) (readAndRegisterString_vh h)

theorem decodeNewString16_vh {st st' : RState} {s : String}
    (h : decodeNewString16 st = .ok (s, st')) : sameVH st st' := by
  unfold decodeNewString16 at h
  rcases hr : readUint16 st with e | ⟨len, st1⟩ <;> rw [hr] at h
  · rw [bindErr] at h
    exact absurd h (by simp)
  · simp only [bindOk] at h
    have h1 := readUint16_ok hr
    subst h1
    exact sameVH_trans (sameVH_pos st _) (readAndRegisterString_vh h)

theorem decodeNewString32_vh {st st' : RState} {s : String}
    (h : decodeNewString32 st = .ok (s, st')) : sameVH st st' := by
  unfold decodeNewString32 at h
  rcases hr : readUint32 st with e | ⟨len, st1⟩ <;> rw [hr] at h
  · rw [bindErr] at h
    exact absurd h (by simp)
  · simp only [bindOk] at h
    have h1 := readUint32_ok hr
    subst h1
    exact sameVH_trans (sameVH_pos st _) (readAndRegisterString_vh h)

theorem readPropCount_vh {st st' : RState} {n : Nat}
    (h : readPropCount st = .ok (n, st')) : sameVH st st' := by
  unfold readPropCount at h
  rcases hr : readByte st with e | ⟨code, st1⟩ <;> rw [hr] at h
  · rw [bindErr] at h
    exact absurd h (by simp)
  · simp only [bindOk] at h
    have h1 := readByte_ok hr
    subst h1
    split at h
    · rw [readUint8_ok h]
      exact ⟨rfl, rfl, rfl, rfl⟩
    · rw [readUint16_ok h]
      exact ⟨rfl, rfl, rfl, rfl⟩
    · rw [readUint32_ok h]
      exact ⟨rfl, rfl, rfl, rfl⟩
    · exact absurd h (by simp)

theorem readByte_vh {st st' : RState} {v : Nat}
    (h : readByte st = .ok (v, st')) : sameVH st st' := by
  rw [readByte_ok h]
  exact ⟨rfl, rfl, rfl, rfl⟩

theorem readUint8_vh {st st' : RState} {v : Nat}
    (h : readUint8 st = .ok (v, st')) : sameVH st st' := by
  rw [readUint8_ok h]
  exact ⟨rfl, rfl, rfl, rfl⟩

theorem readUint16_vh {st st' : RState} {v : Nat}
    (h : readUint16 st = .ok (v, st')) : sameVH st st' := by
  rw [readUint16_ok h]
  exact ⟨rfl, rfl, rfl, rfl⟩

theorem readUint32_vh {st st' : RState} {v : Nat}
    (h : readUint32 st = .ok (v, st')) : sameVH st st' := by
  rw [readUint32_ok h]
  exact ⟨rfl, rfl, rfl, rfl⟩

theorem readUint64_vh {st st' : RState} {v : Nat}
    (h : readUint64 st = .ok (v, st')) : sameVH st st' := by
  rw [readUint64_ok h]
  exact ⟨rfl, rfl, rfl, rfl⟩

theorem decodeArrayKey_vh {st st' : RState} {k : String}
    (h : decodeArrayKey st = .ok (k, st')) : sameVH st st' := by
  unfold decodeArrayKey at h
  rcases hr : readByte st with e | ⟨code, st1⟩ <;> rw [hr] at h
  · simp only [bindErr] at h
    exact Except.noConfusion h
  · simp only [bindOk] at h
    have hv1 : sameVH st st1 := readByte_vh hr
    split at h
    all_goals first
      | exact Except.noConfusion h
      | (rw [← okPairState h]; exact hv1)
      | exact sameVH_trans hv1 (decodeNewString8_vh h)
      | exact sameVH_trans hv1 (decodeNewString16_vh h)
      | exact sameVH_trans hv1 (decodeNewString32_vh h)
      | (rcases hv : readUint8 st1 with e2 | ⟨v2, st2⟩ <;> rw [hv] at h <;>
          simp only [bindErr, bindOk] at h <;>
          first
            | exact Except.noConfusion h
            | (rw [← okPairState h]; exact sameVH_trans hv1 (readUint8_vh hv))
            | (rcases hl : lookupString v2 st2 with e3 | s3 <;> rw [hl] at h <;>
                simp only [bindErr, bindOk] at h <;>
                first
                  | exact Except.noConfusion h
                  | (rw [← okPairState h]; exact sameVH_trans hv1 (readUint8_vh hv))))
      | (rcases hv : readUint16 st1 with e2 | ⟨v2, st2⟩ <;> rw [hv] at h <;>
          simp only [bindErr, bindOk] at h <;>
          first
            | exact Except.noConfusion h
            | (rw [← okPairState h]; exact sameVH_trans hv1 (readUint16_vh hv))
            | (rcases hl : lookupString v2 st2 with e3 | s3 <;> rw [hl] at h <;>
                simp only [bindErr, bindOk] at h <;>
                first
                  | exact Except.noConfusion h
                  | (rw [← okPairState h]; exact sameVH_trans hv1 (readUint16_vh hv))))
      | (rcases hv : readUint32 st1 with e2 | ⟨v2, st2⟩ <;> rw [hv] at h <;>
          simp only [bindErr, bindOk] at h <;>
          first
            | exact Except.noConfusion h
            | (rw [← okPairState h]; exact sameVH_trans hv1 (readUint32_vh hv))
            | (rcases hl : lookupString v2 st2 with e3 | s3 <;> rw [hl] at h <;>
                simp only [bindErr, bindOk] at h <;>
                first
                  | exact Except.noConfusion h
                  | (rw [← okPairState h]; exact sameVH_trans hv1 (readUint32_vh hv))))
      | (rcases hv : readUint64 st1 with e2 | ⟨v2, st2⟩ <;> rw [hv] at h <;>
          simp only [bindErr, bindOk] at h <;>
          first
            | exact Except.noConfusion h
            | (rw [← okPairState h]; exact sameVH_trans hv1 (readUint64_vh hv)))

theorem decodeRef_vh {code : Nat} {st st' : RState} {v : Value}
    (h : decodeRef code st = .ok (v, st')) : sameVH st st' := by
  unfold decodeRef at h
  split at h
  all_goals first
    | (rw [← okPairState h]; exact sameVH_refl st)
    | (rcases hv : readUint8 st with e2 | ⟨v2, st2⟩ <;> rw [hv] at h <;>
        simp only [bindErr, bindOk] at h <;>
        first
          | exact Except.noConfusion h
          | (rcases hl : lookupValue v2 st2 with e3 | r3 <;> rw [hl] at h <;>
              simp only [bindErr, bindOk] at h <;>
              first
                | exact Except.noConfusion h
                | (rw [← okPairState h]; exact readUint8_vh hv)))
    | (rcases hv : readUint16 st with e2 | ⟨v2, st2⟩ <;> rw [hv] at h <;>
        simp only [bindErr, bindOk] at h <;>
        first
          | exact Except.noConfusion h
          | (rcases hl : lookupValue v2 st2 with e3 | r3 <;> rw [hl] at h <;>
              simp only [bindErr, bindOk] at h <;>
              first
                | exact Except.noConfusion h
                | (rw [← okPairState h]; exact readUint16_vh hv)))
    | (rcases hv : readUint32 st with e2 | ⟨v2, st2⟩ <;> rw [hv] at h <;>
        simp only [bindErr, bindOk] at h <;>
        first
          | exact Except.noConfusion h
          | (rcases hl : lookupValue v2 st2 with e3 | r3 <;> rw [hl] at h <;>
              simp only [bindErr, bindOk] at h <;>
              first
                | exact Except.noConfusion h
                | (rw [← okPairState h]; exact readUint32_vh hv)))

theorem readBytes_vh {n : Nat} {st st' : RState} {b : List Nat}
    (h : readBytes n st = .ok (b, st')) : sameVH st st' := by
  rw [readBytes_ok h]
  exact ⟨rfl, rfl, rfl, rfl⟩

/-- Registering a fresh map at the end of the heap and values table is a
pure extension step. -/
theorem decodeExtends_register (st : RState) (m : GoMap) (a : Nat) :
    decodeExtends st { st with heap := st.heap ++ [m], values := st.values ++ [a] } :=
  ⟨⟨[a], rfl⟩, by simp, fun b hb => List.getD_append _ _ _ _ hb, rfl, rfl⟩

theorem decodeObjectSerializedBody_ext {cn : String} {st st' : RState} {v : Value}
    (h : decodeObjectSerializedBody cn st = .ok (v, st')) :
    decodeExtends st st' := by
  unfold decodeObjectSerializedBody at h
  rcases h3 : readByte st with e | ⟨dlc, st3⟩ <;> rw [h3] at h
  · simp only [bindErr] at h
    exact Except.noConfusion h
  · simp only [bindOk] at h
    have hv3 : sameVH st st3 := readByte_vh h3
    split at h
    all_goals first
      | exact Except.noConfusion h
      | (rcases h4 : readUint8 st3 with e | ⟨dl, st4⟩ <;> rw [h4] at h <;>
          simp only [bindErr, bindOk] at h <;>
          first
            | exact Except.noConfusion h
            | (rcases h5 : readBytes dl st4 with e | ⟨raw, st5⟩ <;> rw [h5] at h <;>
                simp only [bindErr, bindOk] at h <;>
                first
                  | exact Except.noConfusion h
                  | (rw [← okPairState h] ;
                     exact decodeExtends_trans
                       (sameVH_decodeExtends (sameVH_trans hv3
                         (sameVH_trans (readUint8_vh h4) (readBytes_vh h5))))
                       (decodeExtends_register _ _ _))))
      | (rcases h4 : readUint16 st3 with e | ⟨dl, st4⟩ <;> rw [h4] at h <;>
          simp only [bindErr, bindOk] at h <;>
          first
            | exact Except.noConfusion h
            | (rcases h5 : readBytes dl st4 with e | ⟨raw, st5⟩ <;> rw [h5] at h <;>
                simp only [bindErr, bindOk] at h <;>
                first
                  | exact Except.noConfusion h
                  | (rw [← okPairState h] ;
                     exact decodeExtends_trans
                       (sameVH_decodeExtends (sameVH_trans hv3
                         (sameVH_trans (readUint16_vh h4) (readBytes_vh h5))))
                       (decodeExtends_register _ _ _))))
      | (rcases h4 : readUint32 st3 with e | ⟨dl, st4⟩ <;> rw [h4] at h <;>
          simp only [bindErr, bindOk] at h <;>
          first
            | exact Except.noConfusion h
            | (rcases h5 : readBytes dl st4 with e | ⟨raw, st5⟩ <;> rw [h5] at h <;>
                simp only [bindErr, bindOk] at h <;>
                first
                  | exact Except.noConfusion h
                  | (rw [← okPairState h] ;
                     exact decodeExtends_trans
                       (sameVH_decodeExtends (sameVH_trans hv3
                         (sameVH_trans (readUint32_vh h4) (readBytes_vh h5))))
                       (decodeExtends_register _ _ _))))

theorem decodeObjectSerialized_ext {code : Nat} {st st' : RState} {v : Value}
    (h : decodeObjectSerialized code st = .ok (v, st')) :
    decodeExtends st st' := by
  unfold decodeObjectSerialized at h
  split at h
  all_goals first
    | (simp only [bindOk] at h ;
       rcases h2 : readAndRegisterString 0 st with e | ⟨cn, st2⟩ <;> rw [h2] at h <;>
        simp only [bindErr, bindOk] at h <;>
        first
          | exact Except.noConfusion h
          | exact decodeExtends_trans
              (sameVH_decodeExtends (readAndRegisterString_vh h2))
              (decodeObjectSerializedBody_ext h))
    | (rcases h1 : readUint8 st with e | ⟨nameLen, st1⟩ <;> rw [h1] at h <;>
        simp only [bindErr, bindOk] at h <;>
        first
          | exact Except.noConfusion h
          | (rcases h2 : readAndRegisterString nameLen st1 with e | ⟨cn, st2⟩ <;>
              rw [h2] at h <;>
              simp only [bindErr, bindOk] at h <;>
              first
                | exact Except.noConfusion h
                | exact decodeExtends_trans
                    (sameVH_decodeExtends (sameVH_trans (readUint8_vh h1)
                      (readAndRegisterString_vh h2)))
                    (decodeObjectSerializedBody_ext h)))
    | (rcases h1 : readUint16 st with e | ⟨nameLen, st1⟩ <;> rw [h1] at h <;>
        simp only [bindErr, bindOk] at h <;>
        first
          | exact Except.noConfusion h
          | (rcases h2 : readAndRegisterString nameLen st1 with e | ⟨cn, st2⟩ <;>
              rw [h2] at h <;>
              simp only [bindErr, bindOk] at h <;>
              first
                | exact Except.noConfusion h
                | exact decodeExtends_trans
                    (sameVH_decodeExtends (sameVH_trans (readUint16_vh h1)
                      (readAndRegisterString_vh h2)))
                    (decodeObjectSerializedBody_ext h)))
    | (rcases h1 : readUint32 st with e | ⟨nameLen, st1⟩ <;> rw [h1] at h <;>
        simp only [bindErr, bindOk] at h <;>
        first
          | exact Except.noConfusion h
          | (rcases h2 : readAndRegisterString nameLen st1 with e | ⟨cn, st2⟩ <;>
              rw [h2] at h <;>
              simp only [bindErr, bindOk] at h <;>
              first
                | exact Except.noConfusion h
                | exact decodeExtends_trans
                    (sameVH_decodeExtends (sameVH_trans (readUint32_vh h1)
                      (readAndRegisterString_vh h2)))
                    (decodeObjectSerializedBody_ext h)))

/-! ## Heap-update lemmas and the loop invariant -/

theorem heapSet_values (st : RState) (a : Nat) (k : String) (v : Value) :
    (heapSet st a k v).values = st.values := rfl

theorem heapSet_data (st : RState) (a : Nat) (k : String) (v : Value) :
    (heapSet st a k v).data = st.data := rfl

theorem heapSet_strict (st : RState) (a : Nat) (k : String) (v : Value) :
    (heapSet st a k v).strict = st.strict := rfl

theorem heapSet_length (st : RState) (a : Nat) (k : String) (v : Value) :
    (heapSet st a k v).heap.length = st.heap.length := by
  simp [heapSet]

theorem heapSet_getD_ne (st : RState) (a b : Nat) (k : String) (v : Value)
    (h : b ≠ a) : (heapSet st a k v).heap.getD b [] = st.heap.getD b [] :=
  getD_set_ne _ _ _ _ _ h

theorem heapSet_getD_self (st : RState) (a : Nat) (k : String) (v : Value)
    (h : a < st.heap.length) :
    (heapSet st a k v).heap.getD a [] = mapSet (st.heap.getD a []) k v :=
  getD_set_self _ _ _ _ h

/-- Invariant established by a container-population loop at address `a`
with `rem` entries remaining: the values table only extends, the heap
only grows, heap cells other than `a` are untouched, and cell `a` ends
up as the initial cell updated by the `rem` decoded key/value pairs in
order. -/
def loopExtends (a rem : Nat) (st st' : RState) : Prop :=
  (∃ t, st'.values = st.values ++ t)
    ∧ st.heap.length ≤ st'.heap.length
    ∧ (∀ b, b < st.heap.length → b ≠ a → st'.heap.getD b [] = st.heap.getD b [])
    ∧ st'.data = st.data ∧ st'.strict = st.strict
    ∧ (∃ ps : List (String × Value), ps.length = rem ∧
        st'.heap.getD a [] =
          ps.foldl (fun m kv => mapSet m kv.1 kv.2) (st.heap.getD a []))

theorem loopExtends_refl (a : Nat) (st : RState) : loopExtends a 0 st st :=
  ⟨⟨[], by simp⟩, le_refl _, fun _ _ _ => rfl, rfl, rfl, ⟨[], rfl, rfl⟩⟩

/-- A registration step (fresh map appended to heap and values) followed
by a population loop at the fresh address only extends the caller's
tables. -/
theorem register_loop_extends {st st' : RState} {m : GoMap} {rem : Nat}
    (h : loopExtends st.heap.length rem
        { st with heap := st.heap ++ [m], values := st.values ++ [st.heap.length] }
        st') :
    decodeExtends st st' := by
  obtain ⟨⟨t, ht⟩, hlen, hstab, hdata, hstrict, _⟩ := h
  refine ⟨⟨[st.heap.length] ++ t, by rw [ht]; simp⟩, ?_, ?_, hdata, hstrict⟩
  · calc st.heap.length ≤ (st.heap ++ [m]).length := by simp
      _ ≤ st'.heap.length := hlen
  · intro b hb
    have hb2 : b < (st.heap ++ [m]).length := by simp; omega
    rw [hstab b hb2 (by omega)]
    exact List.getD_append _ _ _ _ hb

/-! ## One-step unfolding equations for the self-recursive loops -/

theorem decodeArrayEntries_zero (fuel i a : Nat) (st : RState) :
    decodeArrayEntries (fuel + 1) 0 i a st = .ok (.vnull, st) := rfl

theorem decodeArrayEntries_step_err_key {fuel rem i a : Nat} {st : RState}
    {e : DErr} (hk : decodeArrayKey st = .error e) :
    decodeArrayEntries (fuel + 1) (rem + 1) i a st =
      .error (.wrapped ("array key " ++ toString i) e) := by
  unfold decodeArrayEntries decodeStep
  simp only [hk]

theorem decodeArrayEntries_step_err_val {fuel rem i a : Nat} {st st1 : RState}
    {key : String} {e : DErr} (hk : decodeArrayKey st = .ok (key, st1))
    (hv : decodeValue fuel st1 = .error e) :
    decodeArrayEntries (fuel + 1) (rem + 1) i a st =
      .error (.wrapped ("array value for key \"" ++ key ++ "\"") e) := by
  unfold decodeArrayEntries decodeStep
  simp only [hk, stepVal_eq, hv]

theorem decodeArrayEntries_step_ok {fuel rem i a : Nat} {st st1 st2 : RState}
    {key : String} {val : Value} (hk : decodeArrayKey st = .ok (key, st1))
    (hv : decodeValue fuel st1 = .ok (val, st2)) :
    decodeArrayEntries (fuel + 1) (rem + 1) i a st =
      decodeArrayEntries fuel rem (i + 1) a (heapSet st2 a key val) := by
  conv_lhs => unfold decodeArrayEntries decodeStep
  simp only [hk, stepVal_eq, hv, stepArrE_eq]

theorem decodeObjectEntries_zero (fuel : Nat) (cn : String) (i a : Nat)
    (st : RState) : decodeObjectEntries (fuel + 1) cn 0 i a st = .ok (.vnull, st) := rfl

theorem decodeObjectEntries_step_err_key {fuel rem i a : Nat} {cn : String}
    {st : RState} {e : DErr} (hk : decodeArrayKey st = .error e) :
    decodeObjectEntries (fuel + 1) cn (rem + 1) i a st =
      .error (.wrapped ("object \"" ++ cn ++ "\" property key " ++ toString i) e) := by
  unfold decodeObjectEntries decodeStep
  simp only [hk]

theorem decodeObjectEntries_step_err_val {fuel rem i a : Nat} {cn : String}
    {st st1 : RState} {key : String} {e : DErr}
    (hk : decodeArrayKey st = .ok (key, st1))
    (hv : decodeValue fuel st1 = .error e) :
    decodeObjectEntries (fuel + 1) cn (rem + 1) i a st =
      .error (.wrapped ("object \"" ++ cn ++ "\" property \"" ++ key ++ "\"") e) := by
  unfold decodeObjectEntries decodeStep
  simp only [hk, stepVal_eq, hv]

theorem decodeObjectEntries_step_ok {fuel rem i a : Nat} {cn : String}
    {st st1 st2 : RState} {key : String} {val : Value}
    (hk : decodeArrayKey st = .ok (key, st1))
    (hv : decodeValue fuel st1 = .ok (val, st2)) :
    decodeObjectEntries (fuel + 1) cn (rem + 1) i a st =
      decodeObjectEntries fuel cn rem (i + 1) a (heapSet st2 a key val) := by
  conv_lhs => unfold decodeObjectEntries decodeStep
  simp only [hk, stepVal_eq, hv, stepObjE_eq]

/-- Combination step for the loop invariant: a decoded key (which leaves
the tables as they were), a decoded value (which only extends them), and
the assignment of the pair into cell `a`, followed by the rest of the
loop. -/
theorem loopExtends_step {a rem : Nat} {st st1 st2 st' : RState}
    {key : String} {val : Value}
    (ha1 : a < st1.heap.length)
    (hkv : sameVH st st1) (hve : decodeExtends st1 st2)
    (hrec : loopExtends a rem (heapSet st2 a key val) st') :
    loopExtends a (rem + 1) st st' := by
  obtain ⟨hkV, hkH, hkD, hkS⟩ := hkv
  obtain ⟨⟨t1, ht1⟩, hl1, hst1, hd1, hs1⟩ := hve
  obtain ⟨⟨t2, ht2⟩, hl2, hst2, hd2, hs2, ⟨ps, hps, hfold⟩⟩ := hrec
  have ha2 : a < st2.heap.length := lt_of_lt_of_le ha1 hl1
  refine ⟨⟨t1 ++ t2, ?_⟩, ?_, ?_, ?_, ?_, ?_⟩
  · rw [ht2, heapSet_values, ht1, hkV, List.append_assoc]
  · calc st.heap.length = st1.heap.length := by rw [hkH]
      _ ≤ st2.heap.length := hl1
      _ = (heapSet st2 a key val).heap.length := (heapSet_length _ _ _ _).symm
      _ ≤ st'.heap.length := hl2
  · intro b hb hbne
    have hb1 : b < st1.heap.length := by rw [hkH]; exact hb
    have hb3 : b < (heapSet st2 a key val).heap.length := by
      rw [heapSet_length]
      exact lt_of_lt_of_le hb1 hl1
    rw [hst2 b hb3 hbne, heapSet_getD_ne _ _ _ _ _ hbne, hst1 b hb1, hkH]
  · rw [hd2, heapSet_data, hd1, hkD]
  · rw [hs2, heapSet_strict, hs1, hkS]
  · refine ⟨(key, val) :: ps, by simp [hps], ?_⟩
    rw [hfold, heapSet_getD_self _ _ _ _ ha2, hst1 a ha1, hkH]
    rfl

set_option maxHeartbeats 3200000 in
/-- Mutual fuel induction over the decoder: every successful decoding
step only extends the values table and the heap (existing table entries
and heap cells are never displaced), and the container-population loops
additionally turn the container's own cell into the fold of the decoded
key/value pairs over the initial cell. -/
theorem decode_mono (fuel : Nat) :
    (∀ st v st', decodeValue fuel st = .ok (v, st') → decodeExtends st st')
    ∧ (∀ size st v st', decodeArray fuel size st = .ok (v, st') → decodeExtends st st')
    ∧ (∀ rem i a st w st', a < st.heap.length →
        decodeArrayEntries fuel rem i a st = .ok (w, st') → loopExtends a rem st st')
    ∧ (∀ code st v st', decodeObject fuel code st = .ok (v, st') → decodeExtends st st')
    ∧ (∀ code st v st', decodeObjectByID fuel code st = .ok (v, st') → decodeExtends st st')
    ∧ (∀ cn st v st', decodeObjectProperties fuel cn st = .ok (v, st') → decodeExtends st st')
    ∧ (∀ cn rem i a st w st', a < st.heap.length →
        decodeObjectEntries fuel cn rem i a st = .ok (w, st') → loopExtends a rem st st') := by
  induction fuel with
  | zero =>
    refine ⟨fun st v st' h => ?_, fun size st v st' h => ?_,
      fun rem i a st w st' _ h => ?_, fun code st v st' h => ?_,
      fun code st v st' h => ?_, fun cn st v st' h => ?_,
      fun cn rem i a st w st' _ h => ?_⟩
    all_goals exact Except.noConfusion h
  | succ fuel ih =>
    obtain ⟨ihV, ihA, ihAE, ihO, ihOI, ihOP, ihOE⟩ := ih
    refine ⟨?_, ?_, ?_, ?_, ?_, ?_, ?_⟩
    -- decodeValue
    · intro st0 v st' h
      simp only [decodeValue, decodeStep, stepArr_eq, stepObj_eq, stepObjID_eq] at h
      rcases hr : readByte st0 with e | ⟨code, st⟩ <;> rw [hr] at h
      · simp only [bindErr] at h
        exact Except.noConfusion h
      · simp only [bindOk] at h
        have hvr : sameVH st0 st := readByte_vh hr
        split at h
        all_goals first
          | exact Except.noConfusion h
          | (rw [← okPairState h] ; exact sameVH_decodeExtends hvr)
          | exact decodeExtends_trans (sameVH_decodeExtends hvr) (ihO _ _ _ _ h)
          | exact decodeExtends_trans (sameVH_decodeExtends hvr) (ihOI _ _ _ _ h)
          | exact decodeExtends_trans (sameVH_decodeExtends hvr) (decodeObjectSerialized_ext h)
          | exact sameVH_decodeExtends (sameVH_trans hvr (decodeRef_vh h))
          | (split at h <;>
              first
                | exact Except.noConfusion h
                | (rw [← okPairState h] ; exact sameVH_decodeExtends hvr))
          | (rcases hs : decodeNewString8 st with e2 | ⟨s2, st2⟩ <;> rw [hs] at h <;>
              simp only [bindErr, bindOk] at h <;>
              first
                | exact Except.noConfusion h
                | (rw [← okPairState h] ;
                   exact sameVH_decodeExtends (sameVH_trans hvr (decodeNewString8_vh hs))))
          | (rcases hs : decodeNewString16 st with e2 | ⟨s2, st2⟩ <;> rw [hs] at h <;>
              simp only [bindErr, bindOk] at h <;>
              first
                | exact Except.noConfusion h
                | (rw [← okPairState h] ;
                   exact sameVH_decodeExtends (sameVH_trans hvr (decodeNewString16_vh hs))))
          | (rcases hs : decodeNewString32 st with e2 | ⟨s2, st2⟩ <;> rw [hs] at h <;>
              simp only [bindErr, bindOk] at h <;>
              first
                | exact Except.noConfusion h
                | (rw [← okPairState h] ;
                   exact sameVH_decodeExtends (sameVH_trans hvr (decodeNewString32_vh hs))))
          | (rcases hv : readUint8 st with e2 | ⟨v2, st2⟩ <;> rw [hv] at h <;>
              simp only [bindErr, bindOk] at h <;>
              first
                | exact Except.noConfusion h
                | (rw [← okPairState h] ;
                   exact sameVH_decodeExtends (sameVH_trans hvr (readUint8_vh hv)))
                | (rcases hl : lookupString v2 st2 with e3 | s3 <;> rw [hl] at h <;>
                    simp only [bindErr, bindOk] at h <;>
                    first
                      | exact Except.noConfusion h
                      | (rw [← okPairState h] ;
                         exact sameVH_decodeExtends (sameVH_trans hvr (readUint8_vh hv))))
                | exact decodeExtends_trans
                    (sameVH_decodeExtends (sameVH_trans hvr (readUint8_vh hv)))
                    (ihA _ _ _ _ h))
          | (rcases hv : readUint16 st with e2 | ⟨v2, st2⟩ <;> rw [hv] at h <;>
              simp only [bindErr, bindOk] at h <;>
              first
                | exact Except.noConfusion h
                | (rw [← okPairState h] ;
                   exact sameVH_decodeExtends (sameVH_trans hvr (readUint16_vh hv)))
                | (rcases hl : lookupString v2 st2 with e3 | s3 <;> rw [hl] at h <;>
                    simp only [bindErr, bindOk] at h <;>
                    first
                      | exact Except.noConfusion h
                      | (rw [← okPairState h] ;
                         exact sameVH_decodeExtends (sameVH_trans hvr (readUint16_vh hv))))
                | exact decodeExtends_trans
                    (sameVH_decodeExtends (sameVH_trans hvr (readUint16_vh hv)))
                    (ihA _ _ _ _ h))
          | (rcases hv : readUint32 st with e2 | ⟨v2, st2⟩ <;> rw [hv] at h <;>
              simp only [bindErr, bindOk] at h <;>
              first
                | exact Except.noConfusion h
                | (rw [← okPairState h] ;
                   exact sameVH_decodeExtends (sameVH_trans hvr (readUint32_vh hv)))
                | (rcases hl : lookupString v2 st2 with e3 | s3 <;> rw [hl] at h <;>
                    simp only [bindErr, bindOk] at h <;>
                    first
                      | exact Except.noConfusion h
                      | (rw [← okPairState h] ;
                         exact sameVH_decodeExtends (sameVH_trans hvr (readUint32_vh hv))))
                | exact decodeExtends_trans
                    (sameVH_decodeExtends (sameVH_trans hvr (readUint32_vh hv)))
                    (ihA _ _ _ _ h))
          | (rcases hv : readUint64 st with e2 | ⟨v2, st2⟩ <;> rw [hv] at h <;>
              simp only [bindErr, bindOk] at h <;>
              first
                | exact Except.noConfusion h
                | (rw [← okPairState h] ;
                   exact sameVH_decodeExtends (sameVH_trans hvr (readUint64_vh hv))))
    -- decodeArray
    · intro size st v st' h
      simp only [decodeArray, decodeStep, stepArrE_eq] at h
      rcases hL : (decodeArrayEntries fuel size 0 st.heap.length
          ({ st with
              heap := st.heap ++ [[]],
              values := st.values ++ [st.heap.length] }))
          with e | ⟨w, st2⟩ <;> rw [hL] at h
      · simp only [Except.map] at h
        exact Except.noConfusion h
      · simp only [Except.map] at h
        rw [← okPairState h]
        exact register_loop_extends (ihAE _ _ _ _ _ _ (by simp) hL)
    -- decodeArrayEntries
    · intro rem i a st w st' ha h
      cases rem with
      | zero =>
        rw [decodeArrayEntries_zero] at h
        exact okPairState h ▸ loopExtends_refl a st
      | succ rem =>
        rcases hk : decodeArrayKey st with e | ⟨key, st1⟩
        · rw [decodeArrayEntries_step_err_key hk] at h
          exact Except.noConfusion h
        · rcases hdv : decodeValue fuel st1 with e | ⟨val, st2⟩
          · rw [decodeArrayEntries_step_err_val hk hdv] at h
            exact Except.noConfusion h
          · rw [decodeArrayEntries_step_ok hk hdv] at h
            have hkv : sameVH st st1 := decodeArrayKey_vh hk
            have hve : decodeExtends st1 st2 := ihV _ _ _ hdv
            have ha1 : a < st1.heap.length := by
              rw [hkv.2.1]
              exact ha
            have ha2 : a < (heapSet st2 a key val).heap.length := by
              rw [heapSet_length]
              exact lt_of_lt_of_le ha1 hve.2.1
            exact loopExtends_step ha1 hkv hve (ihAE _ _ _ _ _ _ ha2 h)
    -- decodeObject
    · intro code st v st' h
      simp only [decodeObject, decodeStep, stepProps_eq] at h
      split at h
      all_goals first
        | (simp only [bindOk] at h ;
           rcases h2 : readAndRegisterString 0 st with e | ⟨cn, st2⟩ <;> rw [h2] at h <;>
            simp only [bindErr, bindOk] at h <;>
            first
              | exact Except.noConfusion h
              | exact decodeExtends_trans
                  (sameVH_decodeExtends (readAndRegisterString_vh h2)) (ihOP _ _ _ _ h))
        | (rcases h1 : readUint8 st with e | ⟨nameLen, st1⟩ <;> rw [h1] at h <;>
            simp only [bindErr, bindOk] at h <;>
            first
              | exact Except.noConfusion h
              | (rcases h2 : readAndRegisterString nameLen st1 with e | ⟨cn, st2⟩ <;>
                  rw [h2] at h <;> simp only [bindErr, bindOk] at h <;>
                  first
                    | exact Except.noConfusion h
                    | exact decodeExtends_trans
                        (sameVH_decodeExtends (sameVH_trans (readUint8_vh h1)
                          (readAndRegisterString_vh h2))) (ihOP _ _ _ _ h)))
        | (rcases h1 : readUint16 st with e | ⟨nameLen, st1⟩ <;> rw [h1] at h <;>
            simp only [bindErr, bindOk] at h <;>
            first
              | exact Except.noConfusion h
              | (rcases h2 : readAndRegisterString nameLen st1 with e | ⟨cn, st2⟩ <;>
                  rw [h2] at h <;> simp only [bindErr, bindOk] at h <;>
                  first
                    | exact Except.noConfusion h
                    | exact decodeExtends_trans
                        (sameVH_decodeExtends (sameVH_trans (readUint16_vh h1)
                          (readAndRegisterString_vh h2))) (ihOP _ _ _ _ h)))
        | (rcases h1 : readUint32 st with e | ⟨nameLen, st1⟩ <;> rw [h1] at h <;>
            simp only [bindErr, bindOk] at h <;>
            first
              | exact Except.noConfusion h
              | (rcases h2 : readAndRegisterString nameLen st1 with e | ⟨cn, st2⟩ <;>
                  rw [h2] at h <;> simp only [bindErr, bindOk] at h <;>
                  first
                    | exact Except.noConfusion h
                    | exact decodeExtends_trans
                        (sameVH_decodeExtends (sameVH_trans (readUint32_vh h1)
                          (readAndRegisterString_vh h2))) (ihOP _ _ _ _ h)))
    -- decodeObjectByID
    · intro code st v st' h
      simp only [decodeObjectByID, decodeStep, stepProps_eq] at h
      split at h
      all_goals first
        | (simp only [bindOk] at h ;
           split at h <;>
            first
              | exact Except.noConfusion h
              | exact ihOP _ _ _ _ h)
        | (rcases h1 : readUint8 st with e | ⟨classID, st1⟩ <;> rw [h1] at h <;>
            simp only [bindErr, bindOk] at h <;>
            first
              | exact Except.noConfusion h
              | (split at h <;>
                  first
                    | exact Except.noConfusion h
                    | exact decodeExtends_trans
                        (sameVH_decodeExtends (readUint8_vh h1)) (ihOP _ _ _ _ h)))
        | (rcases h1 : readUint16 st with e | ⟨classID, st1⟩ <;> rw [h1] at h <;>
            simp only [bindErr, bindOk] at h <;>
            first
              | exact Except.noConfusion h
              | (split at h <;>
                  first
                    | exact Except.noConfusion h
                    | exact decodeExtends_trans
                        (sameVH_decodeExtends (readUint16_vh h1)) (ihOP _ _ _ _ h)))
        | (rcases h1 : readUint32 st with e | ⟨classID, st1⟩ <;> rw [h1] at h <;>
            simp only [bindErr, bindOk] at h <;>
            first
              | exact Except.noConfusion h
              | (split at h <;>
                  first
                    | exact Except.noConfusion h
                    | exact decodeExtends_trans
                        (sameVH_decodeExtends (readUint32_vh h1)) (ihOP _ _ _ _ h)))
    -- decodeObjectProperties
    · intro cn st v st' h
      simp only [decodeObjectProperties, decodeStep, stepObjE_eq] at h
      rcases hp : readPropCount st with e | ⟨n, st1⟩ <;> rw [hp] at h
      · simp only [bindErr] at h
        exact Except.noConfusion h
      · simp only [bindOk] at h
        rcases hL : (decodeObjectEntries fuel cn n 0 st1.heap.length
            ({ st1 with
                heap := st1.heap ++ [[(ClassKey, Value.vstr cn)]],
                values := st1.values ++ [st1.heap.length] }))
            with e | ⟨w, st3⟩ <;> rw [hL] at h
        · simp only [Except.map] at h
          exact Except.noConfusion h
        · simp only [Except.map] at h
          rw [← okPairState h]
          exact decodeExtends_trans (sameVH_decodeExtends (readPropCount_vh hp))
            (register_loop_extends (ihOE _ _ _ _ _ _ _ (by simp) hL))
    -- decodeObjectEntries
    · intro cn rem i a st w st' ha h
      cases rem with
      | zero =>
        rw [decodeObjectEntries_zero] at h
        exact okPairState h ▸ loopExtends_refl a st
      | succ rem =>
        rcases hk : decodeArrayKey st with e | ⟨key, st1⟩
        · rw [decodeObjectEntries_step_err_key hk] at h
          exact Except.noConfusion h
        · rcases hdv : decodeValue fuel st1 with e | ⟨val, st2⟩
          · rw [decodeObjectEntries_step_err_val hk hdv] at h
            exact Except.noConfusion h
          · rw [decodeObjectEntries_step_ok hk hdv] at h
            have hkv : sameVH st st1 := decodeArrayKey_vh hk
            have hve : decodeExtends st1 st2 := ihV _ _ _ hdv
            have ha1 : a < st1.heap.length := by
              rw [hkv.2.1]
              exact ha
            have ha2 : a < (heapSet st2 a key val).heap.length := by
              rw [heapSet_length]
              exact lt_of_lt_of_le ha1 hve.2.1
            exact loopExtends_step ha1 hkv hve (ihOE _ _ _ _ _ _ _ ha2 h)

/-! ## Pure facts about Go map assignment -/

theorem getD_append_self {α : Type} (l : List α) (x d : α) :
    (l ++ [x]).getD l.length d = x := by
  induction l with
  | nil => rfl
  | cons y ys ih => simp [ih]

theorem mapSet_length_le (m : GoMap) (k : String) (v : Value) :
    (mapSet m k v).length ≤ m.length + 1 := by
  induction m with
  | nil => simp [mapSet]
  | cons p rest ih =>
    obtain ⟨k0, v0⟩ := p
    by_cases hk : k0 = k
    · simp [mapSet, hk]
    · simp only [mapSet, if_neg hk, List.length_cons]
      omega

theorem mapSet_length_new (m : GoMap) (k : String) (v : Value)
    (hk : k ∉ mapKeys m) : (mapSet m k v).length = m.length + 1 := by
  induction m with
  | nil => rfl
  | cons p rest ih =>
    obtain ⟨k0, v0⟩ := p
    have hk0 : k0 ≠ k := by
      intro hc
      exact hk (by simp [mapKeys, hc])
    have hk2 : k ∉ mapKeys rest := by
      intro hc
      exact hk (by simp [mapKeys] at hc ⊢; exact Or.inr hc)
    simp only [mapSet, if_neg hk0, List.length_cons, ih hk2]

theorem mem_mapKeys_set_of_mem {m : GoMap} {k : String} {v : Value}
    {x : String} (hx : x ∈ mapKeys m) : x ∈ mapKeys (mapSet m k v) := by
  induction m with
  | nil => simp [mapKeys] at hx
  | cons p rest ih =>
    obtain ⟨k0, v0⟩ := p
    simp only [mapKeys, List.map_cons, List.mem_cons] at hx
    by_cases hk : k0 = k
    · simp only [mapSet, if_pos hk, mapKeys, List.map_cons, List.mem_cons]
      rcases hx with hx | hx
      · exact Or.inl (hx.trans hk)
      · exact Or.inr hx
    · simp only [mapSet, if_neg hk, mapKeys, List.map_cons, List.mem_cons]
      rcases hx with hx | hx
      · exact Or.inl hx
      · exact Or.inr (ih hx)

theorem mem_mapKeys_set {m : GoMap} {k : String} {v : Value} {x : String}
    (hx : x ∈ mapKeys (mapSet m k v)) : x ∈ mapKeys m ∨ x = k := by
  induction m with
  | nil =>
    simp only [mapSet, mapKeys, List.map_cons, List.map_nil, List.mem_singleton] at hx
    exact Or.inr hx
  | cons p rest ih =>
    obtain ⟨k0, v0⟩ := p
    by_cases hk : k0 = k
    · simp only [mapSet, if_pos hk, mapKeys, List.map_cons, List.mem_cons] at hx
      rcases hx with hx | hx
      · exact Or.inr hx
      · exact Or.inl (List.mem_cons_of_mem _ hx)
    · simp only [mapSet, if_neg hk, mapKeys, List.map_cons, List.mem_cons] at hx
      rcases hx with hx | hx
      · exact Or.inl (by simp only [mapKeys, List.map_cons, List.mem_cons]; exact Or.inl hx)
      · rcases ih hx with hh | hh
        · exact Or.inl (List.mem_cons_of_mem _ hh)
        · exact Or.inr hh

theorem foldl_mapSet_length_le (ps : List (String × Value)) (m : GoMap) :
    (ps.foldl (fun m kv => mapSet m kv.1 kv.2) m).length ≤ m.length + ps.length := by
  induction ps generalizing m with
  | nil => simp
  | cons kv rest ih =>
    calc (List.foldl (fun m kv => mapSet m kv.1 kv.2) (mapSet m kv.1 kv.2) rest).length
        ≤ (mapSet m kv.1 kv.2).length + rest.length := ih _
      _ ≤ m.length + 1 + rest.length := by
          have := mapSet_length_le m kv.1 kv.2
          omega
      _ = m.length + (rest.length + 1) := by omega
      _ = m.length + (kv :: rest).length := by simp

theorem foldl_mapSet_mem_keys (ps : List (String × Value)) (m : GoMap)
    {k : String} (hk : k ∈ mapKeys m) :
    k ∈ mapKeys (ps.foldl (fun m kv => mapSet m kv.1 kv.2) m) := by
  induction ps generalizing m with
  | nil => exact hk
  | cons kv rest ih => exact ih _ (mem_mapKeys_set_of_mem hk)

theorem foldl_mapSet_length_eq (ps : List (String × Value)) (m : GoMap)
    (hnd : (ps.map Prod.fst).Nodup)
    (hdisj : ∀ x ∈ ps.map Prod.fst, x ∉ mapKeys m) :
    (ps.foldl (fun m kv => mapSet m kv.1 kv.2) m).length = m.length + ps.length := by
  induction ps generalizing m with
  | nil => simp
  | cons kv rest ih =>
    have hknotin : kv.1 ∉ mapKeys m := hdisj kv.1 (by simp)
    have hnd2 : (rest.map Prod.fst).Nodup := (List.nodup_cons.mp (by simpa using hnd)).2
    have hdisj2 : ∀ x ∈ rest.map Prod.fst, x ∉ mapKeys (mapSet m kv.1 kv.2) := by
      intro x hx hmem
      rcases mem_mapKeys_set hmem with hh | hh
      · exact hdisj x (by simp [hx]) hh
      · have : kv.1 ∉ rest.map Prod.fst := (List.nodup_cons.mp (by simpa using hnd)).1
        exact this (hh ▸ hx)
    calc (List.foldl (fun m kv => mapSet m kv.1 kv.2) (mapSet m kv.1 kv.2) rest).length
        = (mapSet m kv.1 kv.2).length + rest.length := ih _ hnd2 hdisj2
      _ = m.length + 1 + rest.length := by rw [mapSet_length_new m kv.1 kv.2 hknotin]
      _ = m.length + (kv :: rest).length := by simp; omega

/-! ## Claim theorems -/

/-- Claim C1: whenever `decodeValue` or `decodeArrayKey` meets the
empty-string tag `0x0D`, the decoder produces the empty string value and
advances past the tag byte without touching the string deduplication
table (the result state is the input state with only `pos` moved, so
`strings` is unchanged); and a string-id back-reference with index `k`
resolves to the `k`-th entry of that table, i.e. to the `k`-th fresh
string registered in encounter order — exactly as if the empty-string
occurrence never existed. -/
theorem c1_empty_string_tag_transparent (fuel : Nat) (st : RState)
    (hpos : st.pos < st.data.length)
    (hbyte : st.data.getD st.pos 0 = 0x0D) :
    decodeValue (fuel + 1) st = .ok (.vstr "", { st with pos := st.pos + 1 })
    ∧ decodeArrayKey st = .ok ("", { st with pos := st.pos + 1 })
    ∧ (∀ k, k < st.strings.length → lookupString k st = .ok (st.strings.getD k "")) := by
  have hr : readByte st = .ok (0x0D, { st with pos := st.pos + 1 }) := by
    unfold readByte
    rw [if_neg (by omega : ¬ st.pos ≥ st.data.length), hbyte]
  refine ⟨?_, ?_, ?_⟩
  · simp only [decodeValue, decodeStep, hr, bindOk]
  · simp only [decodeArrayKey, hr, bindOk]
  · intro k hk
    unfold lookupString
    rw [if_pos hk]

theorem c1_witness :
    decodeValue 1 (RState.mk [0x0D] 0 ["s"] [] [] false)
      = .ok (.vstr "", RState.mk [0x0D] 1 ["s"] [] [] false)
    ∧ decodeArrayKey (RState.mk [0x0D] 0 ["s"] [] [] false)
      = .ok ("", RState.mk [0x0D] 1 ["s"] [] [] false)
    ∧ lookupString 0 (RState.mk [0x0D] 0 ["s"] [] [] false) = .ok "s" := by
  obtain ⟨h1, h2, h3⟩ := c1_empty_string_tag_transparent 0
    (RState.mk [0x0D] 0 ["s"] [] [] false) (by decide) (by decide)
  exact ⟨h1, h2, h3 0 (by decide)⟩

/-- Claim C4: decoding is deterministic and depends only on the input
bytes and the strict flag.  `Decoder.Decode` builds a fresh session
(`initialReader`: cursor at 4, empty tables) for every call, so two
decoders with the same strict setting produce identical results on every
input — the same value tree or the same error — and the underlying
reader runs are identical states, hence they consume the same number of
input bytes. -/
theorem c4_decode_deterministic (d1 d2 : Decoder) (data : List Nat)
    (h : d1.strict = d2.strict) :
    d1.Decode data = d2.Decode data
    ∧ decodeValue (decodeFuel data) (initialReader d1 data)
        = decodeValue (decodeFuel data) (initialReader d2 data) := by
  cases d1
  cases d2
  cases h
  exact ⟨rfl, rfl⟩

theorem c4_witness :
    Decoder.Decode { strict := false } [0x00, 0x00, 0x00, 0x02, 0x06, 0x2A]
      = Decoder.Decode { strict := false } [0x00, 0x00, 0x00, 0x02, 0x06, 0x2A] :=
  (c4_decode_deterministic { strict := false } { strict := false }
    [0x00, 0x00, 0x00, 0x02, 0x06, 0x2A] rfl).1

/-- Claim C2: every freshly allocated container map is appended to the
values table before any of its keys or entry values are decoded.
Conjunct 1: `decodeArray` first registers the new (empty) map — the
values table gains the fresh heap address at index `st.values.length` —
and only then runs the entry loop; conjunct 2 states the same for
`decodeObjectProperties` once the property count has been read.
Conjunct 3: the entry loop's nested decodes only ever append to the
values table, so the container's index stays valid throughout its own
subtree.  Conjunct 4: a compound back-reference whose index is in range
resolves via the table, with no `ValueRefOutOfRange` error — in
particular a subtree back-reference carrying the container's own index
resolves to that very container.  Conjunct 5 exhibits this end to end: a
payload whose array contains a back-reference to index 0 (the array
itself) decodes successfully into a map that contains itself. -/
theorem c2_container_registered_before_population :
    (∀ fuel size : Nat, ∀ st : RState,
      decodeArray (fuel + 1) size st =
        (decodeArrayEntries fuel size 0 st.heap.length
          (RState.mk st.data st.pos st.strings (st.values ++ [st.heap.length])
            (st.heap ++ [[]]) st.strict)).map
          (fun p => (Value.vref st.heap.length, p.2))
      ∧ (st.values ++ [st.heap.length]).getD st.values.length 0 = st.heap.length)
    ∧ (∀ fuel : Nat, ∀ cn : String, ∀ st : RState, ∀ n : Nat, ∀ st1 : RState,
        readPropCount st = .ok (n, st1) →
        decodeObjectProperties (fuel + 1) cn st =
          (decodeObjectEntries fuel cn n 0 st1.heap.length
            (RState.mk st1.data st1.pos st1.strings (st1.values ++ [st1.heap.length])
              (st1.heap ++ [[(ClassKey, Value.vstr cn)]]) st1.strict)).map
            (fun p => (Value.vref st1.heap.length, p.2)))
    ∧ (∀ fuel : Nat, ∀ st : RState, ∀ v : Value, ∀ st' : RState,
        decodeValue fuel st = .ok (v, st') → ∃ t, st'.values = st.values ++ t)
    ∧ (∀ st : RState, ∀ k : Nat, k < st.values.length →
        lookupValue k st = .ok (.vref (st.values.getD k 0)))
    ∧ (decodeValue 8 (RState.mk [0x14, 0x01, 0x06, 0x00, 0x01, 0x00] 0 [] [] [] false)
        = .ok (.vref 0,
            RState.mk [0x14, 0x01, 0x06, 0x00, 0x01, 0x00] 6 [] [0]
              [[("0", Value.vref 0)]] false)) := by
  refine ⟨fun fuel size st => ⟨?_, getD_append_self _ _ _⟩,
    fun fuel cn st n st1 hp => ?_, fun fuel st v st' h => ?_,
    fun st k hk => ?_, ?_⟩
  · rfl
  · simp only [decodeObjectProperties, decodeStep, stepObjE_eq, hp, bindOk]
  · exact ((decode_mono fuel).1 st v st' h).1
  · unfold lookupValue
    rw [if_pos hk]
  · rfl

theorem c2_witness :
    (∃ t, ([0] : List Nat) = [] ++ t)
    ∧ lookupValue 0 (RState.mk [0x01, 0x00] 2 [] [0] [[("0", Value.vref 0)]] false)
        = .ok (.vref 0)
    ∧ decodeObjectProperties 3 "A" (RState.mk [0x14, 0x00] 0 [] [] [] false) =
        (decodeObjectEntries 2 "A" 0 0 0
          (RState.mk [0x14, 0x00] 2 [] [0] [[(ClassKey, Value.vstr "A")]] false)).map
          (fun p => (Value.vref 0, p.2)) := by
  refine ⟨?_, ?_, ?_⟩
  · exact c2_container_registered_before_population.2.2.1 8
      (RState.mk [0x14, 0x01, 0x06, 0x00, 0x01, 0x00] 0 [] [] [] false) (.vref 0)
      (RState.mk [0x14, 0x01, 0x06, 0x00, 0x01, 0x00] 6 [] [0]
        [[("0", Value.vref 0)]] false) (by rfl)
  · exact c2_container_registered_before_population.2.2.2.1
      (RState.mk [0x01, 0x00] 2 [] [0] [[("0", Value.vref 0)]] false) 0 (by decide)
  · exact c2_container_registered_before_population.2.1 2 "A"
      (RState.mk [0x14, 0x00] 0 [] [] [] false) 0
      (RState.mk [0x14, 0x00] 2 [] [] [] false) (by rfl)

/-- Claim C3, counterexample.  The claim asserts that `__class` is
populated before the property count is consumed, and that on success the
resulting map contains exactly `property_count + 1` entries.  Both
fail on the code: `decodeObjectProperties` reads the property count
first (conjunct 2 shows `readPropCount` succeeding on the undisturbed
input state), and a property whose key is itself `__class` overwrites
the class entry: the payload below — object of class `"A"` with one
property, key `"__class"`, value null — decodes successfully to a map
with exactly 1 entry, not `1 + 1 = 2`.  Conjunct 3 shows the same
end to end through `decodeValue` on a full object payload. -/
theorem c3_counterexample :
    decodeObjectProperties 6 "A"
        (RState.mk [0x14, 0x01, 0x11, 0x07, 0x5F, 0x5F, 0x63, 0x6C, 0x61, 0x73, 0x73, 0x00]
          0 [] [] [] false)
      = .ok (.vref 0,
          RState.mk [0x14, 0x01, 0x11, 0x07, 0x5F, 0x5F, 0x63, 0x6C, 0x61, 0x73, 0x73, 0x00]
            12 ["__class"] [0] [[("__class", Value.vnull)]] false)
    ∧ readPropCount
        (RState.mk [0x14, 0x01, 0x11, 0x07, 0x5F, 0x5F, 0x63, 0x6C, 0x61, 0x73, 0x73, 0x00]
          0 [] [] [] false)
      = .ok (1,
          RState.mk [0x14, 0x01, 0x11, 0x07, 0x5F, 0x5F, 0x63, 0x6C, 0x61, 0x73, 0x73, 0x00]
            2 [] [] [] false)
    ∧ decodeValue 8
        (RState.mk [0x17, 0x01, 0x41, 0x14, 0x01, 0x11, 0x07, 0x5F, 0x5F, 0x63, 0x6C,
            0x61, 0x73, 0x73, 0x00] 0 [] [] [] false)
      = .ok (.vref 0,
          RState.mk [0x17, 0x01, 0x41, 0x14, 0x01, 0x11, 0x07, 0x5F, 0x5F, 0x63, 0x6C,
            0x61, 0x73, 0x73, 0x00] 15 ["A", "__class"] [0] [[("__class", Value.vnull)]] false)
    ∧ ([("__class", Value.vnull)] : GoMap).length = 1
    ∧ (1 : Nat) + 1 ≠ 1 :=
  ⟨rfl, rfl, rfl, rfl, by decide⟩

/-- Claim C3, amended: when decoding an object's property block, the
property count is consumed from the stream first, and only then is the
map created with the reserved class-name key `__class` and registered;
on success the resulting map always contains `__class` among its keys
and has at most `property_count + 1` entries, with exactly
`property_count + 1` whenever the decoded property keys are pairwise
distinct and none of them equals `__class`. -/
theorem c3_object_map_entries (fuel : Nat) (cn : String) (st : RState)
    (v : Value) (st' : RState)
    (h : decodeObjectProperties fuel cn st = .ok (v, st')) :
    ∃ n st1, readPropCount st = .ok (n, st1)
      ∧ v = Value.vref st1.heap.length
      ∧ ∃ ps : List (String × Value), ps.length = n
          ∧ st'.heap.getD st1.heap.length [] =
              ps.foldl (fun m kv => mapSet m kv.1 kv.2) [(ClassKey, Value.vstr cn)]
          ∧ ClassKey ∈ mapKeys (st'.heap.getD st1.heap.length [])
          ∧ (st'.heap.getD st1.heap.length []).length ≤ n + 1
          ∧ (((ps.map Prod.fst).Nodup ∧ ClassKey ∉ ps.map Prod.fst) →
              (st'.heap.getD st1.heap.length []).length = n + 1) := by
  cases fuel with
  | zero => exact Except.noConfusion h
  | succ fuel =>
    simp only [decodeObjectProperties, decodeStep, stepObjE_eq] at h
    rcases hp : readPropCount st with e | ⟨n, st1⟩ <;> rw [hp] at h
    · simp only [bindErr] at h
      exact Except.noConfusion h
    · simp only [bindOk] at h
      rcases hL : (decodeObjectEntries fuel cn n 0 st1.heap.length
          (RState.mk st1.data st1.pos st1.strings (st1.values ++ [st1.heap.length])
            (st1.heap ++ [[(ClassKey, Value.vstr cn)]]) st1.strict))
          with e | ⟨w, st3⟩ <;> rw [hL] at h
      · simp only [Except.map] at h
        exact Except.noConfusion h
      · simp only [Except.map] at h
        have hst : st3 = st' := okPairState h
        have hv : v = Value.vref st1.heap.length :=
          (congrArg Prod.fst (Except.ok.inj h)).symm
        subst hst
        obtain ⟨_, _, _, _, _, ⟨ps, hps, hfold⟩⟩ :=
          (decode_mono fuel).2.2.2.2.2.2 cn n 0 st1.heap.length _ w st3 (by simp) hL
        have hcell : st3.heap.getD st1.heap.length [] =
            ps.foldl (fun m kv => mapSet m kv.1 kv.2) [(ClassKey, Value.vstr cn)] := by
          rw [hfold]
          congr 1
          exact getD_append_self _ _ _
        refine ⟨n, st1, by first | exact hp | rfl, hv, ps, hps, hcell, ?_, ?_, ?_⟩
        · rw [hcell]
          exact foldl_mapSet_mem_keys ps _ (by simp [mapKeys])
        · rw [hcell]
          have hle := foldl_mapSet_length_le ps [(ClassKey, Value.vstr cn)]
          simp only [List.length_singleton] at hle
          omega
        · rintro ⟨hnd, hnotin⟩
          rw [hcell]
          rw [foldl_mapSet_length_eq ps _ hnd ?_]
          · simp only [List.length_singleton]
            omega
          · intro x hx hmem
            simp only [mapKeys, List.map_cons, List.map_nil, List.mem_singleton] at hmem
            exact hnotin (hmem ▸ hx)

theorem c3_object_map_entries_witness :
    ∃ n st1,
      readPropCount (RState.mk [0x14, 0x01, 0x0D, 0x05] 0 [] [] [] false) = .ok (n, st1)
      ∧ Value.vref 0 = Value.vref st1.heap.length
      ∧ ∃ ps : List (String × Value), ps.length = n
          ∧ (RState.mk [0x14, 0x01, 0x0D, 0x05] 4 [] [0]
              [[(ClassKey, Value.vstr "A"), ("", Value.vbool true)]] false).heap.getD
                st1.heap.length []
              = ps.foldl (fun m kv => mapSet m kv.1 kv.2) [(ClassKey, Value.vstr "A")]
          ∧ ClassKey ∈ mapKeys ((RState.mk [0x14, 0x01, 0x0D, 0x05] 4 [] [0]
              [[(ClassKey, Value.vstr "A"), ("", Value.vbool true)]] false).heap.getD
                st1.heap.length [])
          ∧ ((RState.mk [0x14, 0x01, 0x0D, 0x05] 4 [] [0]
              [[(ClassKey, Value.vstr "A"), ("", Value.vbool true)]] false).heap.getD
                st1.heap.length []).length ≤ n + 1
          ∧ (((ps.map Prod.fst).Nodup ∧ ClassKey ∉ ps.map Prod.fst) →
              ((RState.mk [0x14, 0x01, 0x0D, 0x05] 4 [] [0]
                [[(ClassKey, Value.vstr "A"), ("", Value.vbool true)]] false).heap.getD
                  st1.heap.length []).length = n + 1) :=
  c3_object_map_entries 5 "A" (RState.mk [0x14, 0x01, 0x0D, 0x05] 0 [] [] [] false)
    (Value.vref 0)
    (RState.mk [0x14, 0x01, 0x0D, 0x05] 4 [] [0]
      [[(ClassKey, Value.vstr "A"), ("", Value.vbool true)]] false) (by rfl)

end Igbinary
